import Mathlib

/-!
Verification of the reconciliation core of
`safe_transaction_service/history/management/commands/setup_service.py`.

The Django ORM stores are modelled as lists of rows; `get_or_create`
returns the first row matching the key, or appends a fresh row built from
the defaults; `save` with `update_fields` rewrites exactly the named
columns of the row bearing the object's key.  The Python `version`
attribute is dynamically typed (the drift branch of
`_setup_safe_master_copies` assigns an `int` to it before overwriting it
with a `str`), so it is modelled by the sum type `PyVal`.
-/

namespace SetupService

/-- A Python value held by the dynamically typed `version` attribute:
either an `int` or a `str`. -/
inductive PyVal where
  | int (n : Nat)
  | str (s : String)
  deriving DecidableEq, Repr

/-- `django_celery_beat.models.IntervalSchedule`: a recurrence-interval row,
keyed by `(every, period)`. -/
structure IntervalSchedule where
  every : Nat
  period : String
  deriving DecidableEq, Repr

def IntervalSchedule.SECONDS : String := "seconds"

def IntervalSchedule.MINUTES : String := "minutes"

def IntervalSchedule.HOURS : String := "hours"

def IntervalSchedule.DAYS : String := "days"

/-- `django_celery_beat.models.PeriodicTask`: a stored task row.  The
reconciliation code keys it by the `task` column; `interval` is the
referenced `IntervalSchedule` row. -/
structure PeriodicTask where
  task : String
  name : String
  interval : IntervalSchedule
  enabled : Bool
  deriving DecidableEq, Repr

/-- `history.models.SafeMasterCopy` row. `tx_block_number` is the
last-synced block; `version` is dynamically typed (see `PyVal`). -/
structure SafeMasterCopy where
  address : String
  initial_block_number : Nat
  tx_block_number : Nat
  version : PyVal
  l2 : Bool
  deriving DecidableEq, Repr

/-- `history.models.ProxyFactory` row. -/
structure ProxyFactory where
  address : String
  initial_block_number : Nat
  tx_block_number : Nat
  deriving DecidableEq, Repr

/-- The persistent store: the four tables touched by the command. -/
structure Store where
  intervalSchedules : List IntervalSchedule
  periodicTasks : List PeriodicTask
  masterCopies : List SafeMasterCopy
  proxyFactories : List ProxyFactory
  deriving DecidableEq, Repr

def emptyStore : Store := ⟨[], [], [], []⟩

/-- Python `str.startswith`, computed on the character list (the builtin
`String.startsWith` does not reduce inside the kernel). -/
def strStartsWith (s p : String) : Bool :=
  s.data.take p.data.length == p.data

/-- Python `str.endswith`, computed on the character list. -/
def strEndsWith (s p : String) : Bool :=
  s.data.drop (s.data.length - p.data.length) == p.data

/-- `IntervalSchedule.objects.get_or_create(every=..., period=...)`. -/
def IntervalSchedule.get_or_create (rows : List IntervalSchedule) (every : Nat)
    (period : String) : IntervalSchedule × List IntervalSchedule :=
  match rows.find? (fun r => r.every == every && r.period == period) with
  | some r => (r, rows)
  | none => (⟨every, period⟩, rows ++ [⟨every, period⟩])

/-- `PeriodicTask.objects.get_or_create(task=..., defaults=...)`:
returns the row, the table, and the `created` flag. -/
def PeriodicTask.get_or_create (rows : List PeriodicTask) (task : String)
    (defaults : PeriodicTask) : PeriodicTask × List PeriodicTask × Bool :=
  match rows.find? (fun r => r.task == task) with
  | some r => (r, rows, false)
  | none => (defaults, rows ++ [defaults], true)

/-- `periodic_task.save()`: writes every column of the row keyed by the
object's `task`. -/
def PeriodicTask.save (rows : List PeriodicTask) (obj : PeriodicTask) :
    List PeriodicTask :=
  rows.map fun r => if r.task == obj.task then obj else r

/-- `SafeMasterCopy.objects.get_or_create(address=..., defaults=...)`. -/
def SafeMasterCopy.get_or_create (rows : List SafeMasterCopy) (address : String)
    (defaults : SafeMasterCopy) : SafeMasterCopy × List SafeMasterCopy × Bool :=
  match rows.find? (fun r => r.address == address) with
  | some r => (r, rows, false)
  | none => (defaults, rows ++ [defaults], true)

/-- `safe_master_copy.save(update_fields=["initial_block_number", "version"])`:
writes only those two columns of the row keyed by the object's address. -/
def SafeMasterCopy.save_initial_block_and_version (rows : List SafeMasterCopy)
    (obj : SafeMasterCopy) : List SafeMasterCopy :=
  rows.map fun r =>
    if r.address == obj.address then
      { r with initial_block_number := obj.initial_block_number,
               version := obj.version }
    else r

/-- `ProxyFactory.objects.get_or_create(address=..., defaults=...)`. -/
def ProxyFactory.get_or_create (rows : List ProxyFactory) (address : String)
    (defaults : ProxyFactory) : ProxyFactory × List ProxyFactory × Bool :=
  match rows.find? (fun r => r.address == address) with
  | some r => (r, rows, false)
  | none => (defaults, rows ++ [defaults], true)

/-- The dataclass `CeleryTaskConfiguration`. -/
structure CeleryTaskConfiguration where
  name : String
  description : String
  interval : Nat
  period : String
  enabled : Bool := true
  deriving DecidableEq, Repr

/-- `CeleryTaskConfiguration.create_task`: get-or-create the interval
schedule keyed by `(interval, period)`, get-or-create the periodic task
keyed by `name`, and when the task already existed overwrite its `name`
(label), `interval` and `enabled` columns and save. -/
def CeleryTaskConfiguration.create_task (self : CeleryTaskConfiguration)
    (store : Store) : PeriodicTask × Bool × Store :=
  let p1 := IntervalSchedule.get_or_create store.intervalSchedules
    self.interval self.period
  let interval_schedule := p1.1
  let schedRows := p1.2
  let p2 := PeriodicTask.get_or_create store.periodicTasks self.name
    { task := self.name, name := self.description,
      interval := interval_schedule, enabled := self.enabled }
  let periodic_task := p2.1
  let taskRows := p2.2.1
  let created := p2.2.2
  if created then
    (periodic_task, created,
      { store with intervalSchedules := schedRows, periodicTasks := taskRows })
  else
    let periodic_task := { periodic_task with
      name := self.description, interval := interval_schedule,
      enabled := self.enabled }
    (periodic_task, created,
      { store with intervalSchedules := schedRows,
                   periodicTasks := PeriodicTask.save taskRows periodic_task })

/-- The compiled-in `TASKS` list, parameterized by `settings.ETH_L2_NETWORK`. -/
def TASKS (eth_l2_network : Bool) : List CeleryTaskConfiguration :=
  [⟨"safe_transaction_service.history.tasks.check_reorgs_task",
    "Check Reorgs", 3, IntervalSchedule.MINUTES, true⟩,
   ⟨"safe_transaction_service.history.tasks.check_sync_status_task",
    "Check Sync status", 10, IntervalSchedule.MINUTES, true⟩,
   ⟨"safe_transaction_service.history.tasks.index_internal_txs_task",
    "Index Internal Txs", 13, IntervalSchedule.SECONDS, !eth_l2_network⟩,
   ⟨"safe_transaction_service.history.tasks.index_safe_events_task",
    "Index Safe events (L2)", 13, IntervalSchedule.SECONDS, eth_l2_network⟩,
   ⟨"safe_transaction_service.history.tasks.index_new_proxies_task",
    "Index new Proxies", 15, IntervalSchedule.SECONDS, eth_l2_network⟩,
   ⟨"safe_transaction_service.history.tasks.index_erc20_events_task",
    "Index ERC20/721 Events", 14, IntervalSchedule.SECONDS, true⟩,
   ⟨"safe_transaction_service.history.tasks.index_erc20_events_out_of_sync_task",
    "Index out of sync ERC20/ERC721 Events", 5, IntervalSchedule.MINUTES, true⟩,
   ⟨"safe_transaction_service.history.tasks.reindex_last_hours_task",
    "Reindex master copies for the last hours", 110, IntervalSchedule.MINUTES, true⟩,
   ⟨"safe_transaction_service.history.tasks.process_decoded_internal_txs_task",
    "Process Internal Txs", 20, IntervalSchedule.MINUTES, true⟩,
   ⟨"safe_transaction_service.contracts.tasks.create_missing_contracts_with_metadata_task",
    "Index contract names and ABIs", 1, IntervalSchedule.HOURS, true⟩,
   ⟨"safe_transaction_service.contracts.tasks.reindex_contracts_without_metadata_task",
    "Reindex contracts with missing names or ABIs", 7, IntervalSchedule.DAYS, true⟩,
   ⟨"safe_transaction_service.tokens.tasks.fix_pool_tokens_task",
    "Fix Pool Token Names", 1, IntervalSchedule.HOURS, true⟩]

/-- The compiled-in `MASTER_COPIES` table:
network id → list of `(address, initial_block_number, version)`. -/
def MASTER_COPIES : List (String × List (String × Nat × String)) :=
  [("7001",
    [("0xd9Db270c1B5E3Bd161E8c8503c55cEABeE709552", 9242, "1.3.0"),
     ("0x3E5c63644E683549055b9Be8653de26E0B4CD36E", 9239, "1.3.0+L2")])]

/-- The compiled-in `PROXY_FACTORIES` table:
network id → list of `(address, initial_block_number)`. -/
def PROXY_FACTORIES : List (String × List (String × Nat)) :=
  [("7001", [("0xa6B71E26C5e0845f74c812102Ca7114b6a896AB2", 9223)])]

/-- One iteration of the loop in `Command._setup_safe_master_copies`.
Note the drift branch of the source: it assigns `initial_block_number`
to the `version` attribute, immediately overwrites that with `version`,
and never assigns the in-memory `initial_block_number` attribute before
saving with `update_fields=["initial_block_number", "version"]`. -/
def setupMasterCopyStep (rows : List SafeMasterCopy) :
    String × Nat × String → List SafeMasterCopy
  | (address, initial_block_number, version) =>
    let p := SafeMasterCopy.get_or_create rows address
      { address := address, initial_block_number := initial_block_number,
        tx_block_number := initial_block_number, version := PyVal.str version,
        l2 := strEndsWith version "+L2" }
    let safe_master_copy := p.1
    let rows := p.2.1
    if safe_master_copy.version ≠ PyVal.str version ∨
        safe_master_copy.initial_block_number ≠ initial_block_number then
      let safe_master_copy :=
        { safe_master_copy with version := PyVal.int initial_block_number }
      let safe_master_copy :=
        { safe_master_copy with version := PyVal.str version }
      SafeMasterCopy.save_initial_block_and_version rows safe_master_copy
    else
      rows

/-- `Command._setup_safe_master_copies`: process the declarations in order. -/
def _setup_safe_master_copies : List SafeMasterCopy →
    List (String × Nat × String) → List SafeMasterCopy
  | rows, [] => rows
  | rows, d :: rest => _setup_safe_master_copies (setupMasterCopyStep rows d) rest

/-- One iteration of the loop in `Command._setup_safe_proxy_factories`. -/
def setupProxyFactoryStep (rows : List ProxyFactory) :
    String × Nat → List ProxyFactory
  | (address, initial_block_number) =>
    (ProxyFactory.get_or_create rows address
      { address := address, initial_block_number := initial_block_number,
        tx_block_number := initial_block_number }).2.1

/-- `Command._setup_safe_proxy_factories`. -/
def _setup_safe_proxy_factories : List ProxyFactory →
    List (String × Nat) → List ProxyFactory
  | rows, [] => rows
  | rows, d :: rest => _setup_safe_proxy_factories (setupProxyFactoryStep rows d) rest

/-- Counts reported by the task loop of `Command.handle`: how many tasks
printed "Created Periodic Task" (`createdCount`) and how many printed
"Task ... was already created" (`updatedCount`). -/
structure TaskRunReport where
  createdCount : Nat
  updatedCount : Nat
  deriving DecidableEq, Repr

/-- The `for task in TASKS` loop of `Command.handle`. -/
def runTasks : List CeleryTaskConfiguration → Store × TaskRunReport →
    Store × TaskRunReport
  | [], acc => acc
  | task :: rest, acc =>
    let r := task.create_task acc.1
    let rep :=
      if r.2.1 then { acc.2 with createdCount := acc.2.createdCount + 1 }
      else { acc.2 with updatedCount := acc.2.updatedCount + 1 }
    runTasks rest (r.2.2, rep)

/-- The task-reconciliation part of `Command.handle`: delete every
`PeriodicTask` whose `task` starts with `"safe_transaction_service"`,
then run `create_task` for each declaration. -/
def reconcileTasks (tasks : List CeleryTaskConfiguration) (store : Store) :
    Store × TaskRunReport :=
  let store := { store with
    periodicTasks := store.periodicTasks.filter
      (fun pt => !strStartsWith pt.task "safe_transaction_service") }
  runTasks tasks (store, ⟨0, 0⟩)

/-- Observable outcome of one run of `Command.handle`.  `completed` is
false when the chain-client query (`ethereum_client.w3.net.version`)
raised and the run aborted after the task loop. -/
structure RunOutcome where
  store : Store
  createdCount : Nat
  updatedCount : Nat
  warnedUnrecognized : Bool
  completed : Bool
  deriving DecidableEq, Repr

/-- `Command.handle`, parameterized by the declaration tables and by the
result of the network query (`none` models a connectivity failure, which
in the source raises after the task loop has already run). -/
def Command.handle (tasks : List CeleryTaskConfiguration)
    (master_copies : List (String × List (String × Nat × String)))
    (proxy_factories : List (String × List (String × Nat)))
    (networkResult : Option String) (store : Store) : RunOutcome :=
  let p := reconcileTasks tasks store
  let st := p.1
  let rep := p.2
  match networkResult with
  | none =>
    { store := st, createdCount := rep.createdCount,
      updatedCount := rep.updatedCount, warnedUnrecognized := false,
      completed := false }
  | some ethereum_network_id =>
    let st :=
      match master_copies.lookup ethereum_network_id with
      | some l => { st with masterCopies := _setup_safe_master_copies st.masterCopies l }
      | none => st
    let st :=
      match proxy_factories.lookup ethereum_network_id with
      | some l => { st with proxyFactories := _setup_safe_proxy_factories st.proxyFactories l }
      | none => st
    { store := st, createdCount := rep.createdCount,
      updatedCount := rep.updatedCount,
      warnedUnrecognized :=
        !((master_copies.lookup ethereum_network_id).isSome &&
          (proxy_factories.lookup ethereum_network_id).isSome),
      completed := true }

/-- The stored row that reconciliation produces for a task declaration. -/
def declaredRecord (t : CeleryTaskConfiguration) : PeriodicTask :=
  { task := t.name, name := t.description,
    interval := ⟨t.interval, t.period⟩, enabled := t.enabled }

/-- Key uniqueness of the `PeriodicTask` table (the precondition under
which `get_or_create(task=...)` is well defined). -/
def TaskUnique (rows : List PeriodicTask) : Prop :=
  rows.Pairwise (fun a b => a.task ≠ b.task)

/-- Key uniqueness of the `SafeMasterCopy` table (`address` is unique). -/
def MCUnique (rows : List SafeMasterCopy) : Prop :=
  rows.Pairwise (fun a b => a.address ≠ b.address)

/-- At most one `IntervalSchedule` row per `(every, period)` pair. -/
def SchedUnique (rows : List IntervalSchedule) : Prop :=
  rows.Pairwise (fun a b => ¬(a.every = b.every ∧ a.period = b.period))

end SetupService

namespace SetupService

theorem find?_append_some {α} {p : α → Bool} {l₁ l₂ : List α} {a : α}
    (h : l₁.find? p = some a) : (l₁ ++ l₂).find? p = some a := by
  rw [List.find?_append, h]; rfl

theorem find?_append_none {α} {p : α → Bool} {l₁ l₂ : List α}
    (h : l₁.find? p = none) : (l₁ ++ l₂).find? p = l₂.find? p := by
  rw [List.find?_append, h]; rfl

theorem find?_map_pred {α} {f : α → α} {p : α → Bool}
    (hf : ∀ a, p (f a) = p a) (l : List α) :
    (l.map f).find? p = (l.find? p).map f := by
  induction l with
  | nil => rfl
  | cons a t ih =>
    by_cases h : p a = true
    · rw [List.map_cons, List.find?_cons_of_pos _ ((hf a).trans h),
        List.find?_cons_of_pos _ h]
      rfl
    · rw [List.map_cons,
        List.find?_cons_of_neg _ (by rw [hf a]; exact h),
        List.find?_cons_of_neg _ h, ih]

theorem addr_of_findMC {rows : List SafeMasterCopy} {a : String}
    {mc : SafeMasterCopy}
    (h : rows.find? (fun r => r.address == a) = some mc) : mc.address = a := by
  have h2 := List.find?_some h
  simpa using h2

theorem MCUnique.eq_of_mem {rows : List SafeMasterCopy} (hU : MCUnique rows)
    {a : String} {mc r : SafeMasterCopy}
    (hfind : rows.find? (fun x => x.address == a) = some mc)
    (hr : r ∈ rows) (hra : r.address = a) : r = mc := by
  induction rows with
  | nil => cases hfind
  | cons x t ih =>
    rw [MCUnique, List.pairwise_cons] at hU
    by_cases hx : (x.address == a) = true
    · rw [@List.find?_cons_of_pos _ (fun y => y.address == a) x t hx] at hfind
      cases hfind
      rcases List.mem_cons.mp hr with h | h
      · exact h
      · exact absurd (hra.trans (beq_iff_eq.mp hx).symm).symm (hU.1 r h)
    · rw [@List.find?_cons_of_neg _ (fun y => y.address == a) x t hx] at hfind
      rcases List.mem_cons.mp hr with h | h
      · exact absurd (beq_iff_eq.mpr (h ▸ hra)) hx
      · exact ih hU.2 hfind h

theorem findMC_save (rows : List SafeMasterCopy) (obj : SafeMasterCopy)
    (a : String) :
    (SafeMasterCopy.save_initial_block_and_version rows obj).find?
        (fun r => r.address == a) =
      (rows.find? (fun r => r.address == a)).map
        (fun r => if r.address == obj.address then
          { r with initial_block_number := obj.initial_block_number,
                   version := obj.version } else r) := by
  rw [SafeMasterCopy.save_initial_block_and_version]
  exact find?_map_pred
    (fun r => by by_cases hc : (r.address == obj.address) = true <;> simp [hc]) rows

theorem findMC_setupStep (rows : List SafeMasterCopy) (d : String × Nat × String)
    {a : String} {mc : SafeMasterCopy}
    (h : rows.find? (fun r => r.address == a) = some mc) :
    ∃ v, (setupMasterCopyStep rows d).find? (fun r => r.address == a) =
      some { mc with version := v } := by
  rcases d with ⟨a', ib, v'⟩
  cases hf : rows.find? (fun r => r.address == a') with
  | none =>
    refine ⟨mc.version, ?_⟩
    simp only [setupMasterCopyStep, SafeMasterCopy.get_or_create, hf]
    simp only [ne_eq, not_true_eq_false, or_self, if_false]
    exact find?_append_some h
  | some mc' =>
    simp only [setupMasterCopyStep, SafeMasterCopy.get_or_create, hf]
    split
    · rw [findMC_save, h]
      by_cases hb : (mc.address == mc'.address) = true
      · have haa' : a = a' := by
          rw [← addr_of_findMC h, ← addr_of_findMC hf]
          exact beq_iff_eq.mp hb
        subst haa'
        have hmm : mc = mc' := Option.some.inj (h.symm.trans hf)
        subst hmm
        exact ⟨PyVal.str v', by simp [hb]⟩
      · refine ⟨mc.version, ?_⟩
        simp only [Option.map]
        rw [Bool.not_eq_true] at hb
        simp only [hb]
        rfl
    · exact ⟨mc.version, h⟩

theorem findMC_setup (ds : List (String × Nat × String))
    (rows : List SafeMasterCopy) {a : String} {mc : SafeMasterCopy}
    (h : rows.find? (fun r => r.address == a) = some mc) :
    ∃ v, (_setup_safe_master_copies rows ds).find? (fun r => r.address == a) =
      some { mc with version := v } := by
  induction ds generalizing rows mc with
  | nil => exact ⟨mc.version, h⟩
  | cons d rest ih =>
    obtain ⟨v1, h1⟩ := findMC_setupStep rows d h
    obtain ⟨v2, h2⟩ := ih (setupMasterCopyStep rows d) h1
    exact ⟨v2, h2⟩

theorem setupPF_append (rows : List ProxyFactory) (ds : List (String × Nat)) :
    ∃ ext, _setup_safe_proxy_factories rows ds = rows ++ ext := by
  induction ds generalizing rows with
  | nil => exact ⟨[], (List.append_nil rows).symm⟩
  | cons d rest ih =>
    rcases d with ⟨a, ib⟩
    cases hf : rows.find? (fun r => r.address == a) with
    | some pf =>
      obtain ⟨ext, hext⟩ := ih rows
      refine ⟨ext, ?_⟩
      simpa [_setup_safe_proxy_factories, setupProxyFactoryStep,
        ProxyFactory.get_or_create, hf] using hext
    | none =>
      obtain ⟨ext, hext⟩ := ih (rows ++ [⟨a, ib, ib⟩])
      refine ⟨⟨a, ib, ib⟩ :: ext, ?_⟩
      simp only [_setup_safe_proxy_factories, setupProxyFactoryStep,
        ProxyFactory.get_or_create, hf]
      rw [hext, List.append_assoc]
      rfl

/-- C1: the claim states that when a stored master-copy entry drifts from the
declaration, reconciliation updates both `initial_block_number` and `version`.
Evaluating `_setup_safe_master_copies` at a drifted entry (stored block 5,
declared block 9) shows the persisted row keeps `initial_block_number = 5`:
the drift branch assigns the declared block to the `version` attribute,
overwrites it with the declared version, and never writes the in-memory
`initial_block_number`, so the save persists the stale value. -/
theorem masterCopy_drift_initial_block_number_not_updated :
    _setup_safe_master_copies
      [{ address := "0xA", initial_block_number := 5, tx_block_number := 5,
         version := PyVal.str "1.2.0", l2 := false }]
      [("0xA", 9, "1.3.0")] =
    [{ address := "0xA", initial_block_number := 5, tx_block_number := 5,
       version := PyVal.str "1.3.0", l2 := false }] := by decide

/-- C9: whenever the drift branch runs on an existing entry, the persisted row
has `version` equal to the declared version string (the intermediate
assignment of the integer block number to `version` is always overwritten)
while `initial_block_number` (and every other column) retains its previous
stored value. -/
theorem drift_branch_sets_version_keeps_initial_block
    (rows : List SafeMasterCopy) (a : String) (ib : Nat) (v : String)
    (mc : SafeMasterCopy)
    (h : rows.find? (fun r => r.address == a) = some mc)
    (hd : mc.version ≠ PyVal.str v ∨ mc.initial_block_number ≠ ib) :
    (_setup_safe_master_copies rows [(a, ib, v)]).find?
        (fun r => r.address == a) =
      some { mc with version := PyVal.str v } := by
  show (setupMasterCopyStep rows (a, ib, v)).find? (fun r => r.address == a) =
    some { mc with version := PyVal.str v }
  simp only [setupMasterCopyStep, SafeMasterCopy.get_or_create, h]
  rw [if_pos hd, findMC_save, h]
  simp

/-- C9 witness: concrete instance of the drift branch. -/
theorem drift_branch_sets_version_keeps_initial_block_witness :
    (_setup_safe_master_copies
        [{ address := "0xA", initial_block_number := 5, tx_block_number := 7,
           version := PyVal.str "1.2.0", l2 := true }]
        [("0xA", 9, "1.3.0")]).find? (fun r => r.address == "0xA") =
      some { address := "0xA", initial_block_number := 5, tx_block_number := 7,
             version := PyVal.str "1.3.0", l2 := true } :=
  drift_branch_sets_version_keeps_initial_block
    [{ address := "0xA", initial_block_number := 5, tx_block_number := 7,
       version := PyVal.str "1.2.0", l2 := true }]
    "0xA" 9 "1.3.0"
    { address := "0xA", initial_block_number := 5, tx_block_number := 7,
      version := PyVal.str "1.2.0", l2 := true }
    (by decide) (by decide)

/-- C6: reconciliation never modifies the `tx_block_number`
(lastSyncedBlockNumber) or the `l2` flag of an already-stored master-copy
entry, for any declaration list; the drift branch only rewrites `version`
(and re-persists the stale `initial_block_number`). -/
theorem masterCopy_frame_tx_block_and_l2
    (rows : List SafeMasterCopy) (ds : List (String × Nat × String))
    (a : String) (mc : SafeMasterCopy)
    (h : rows.find? (fun r => r.address == a) = some mc) :
    ∃ mc', (_setup_safe_master_copies rows ds).find?
        (fun r => r.address == a) = some mc'
      ∧ mc'.tx_block_number = mc.tx_block_number ∧ mc'.l2 = mc.l2
      ∧ mc'.initial_block_number = mc.initial_block_number := by
  obtain ⟨v, hv⟩ := findMC_setup ds rows h
  exact ⟨_, hv, rfl, rfl, rfl⟩

/-- C6 witness: concrete run over an already-stored entry. -/
theorem masterCopy_frame_tx_block_and_l2_witness :
    ∃ mc', (_setup_safe_master_copies
        [{ address := "0xB", initial_block_number := 3, tx_block_number := 42,
           version := PyVal.str "1.1.1", l2 := true }]
        [("0xB", 8, "1.3.0")]).find? (fun r => r.address == "0xB") = some mc'
      ∧ mc'.tx_block_number = 42 ∧ mc'.l2 = true
      ∧ mc'.initial_block_number = 3 :=
  masterCopy_frame_tx_block_and_l2
    [{ address := "0xB", initial_block_number := 3, tx_block_number := 42,
       version := PyVal.str "1.1.1", l2 := true }]
    [("0xB", 8, "1.3.0")] "0xB"
    { address := "0xB", initial_block_number := 3, tx_block_number := 42,
      version := PyVal.str "1.1.1", l2 := true }
    (by decide)

/-- C5: an already-stored proxy-factory entry is left entirely unchanged by
reconciliation, even when the declared initial block differs: the loop only
does `get_or_create` with no update step, so the table only ever grows. -/
theorem proxy_factory_existing_entry_unchanged
    (rows : List ProxyFactory) (ds : List (String × Nat))
    (a : String) (pf : ProxyFactory)
    (h : rows.find? (fun r => r.address == a) = some pf) :
    (_setup_safe_proxy_factories rows ds).find?
        (fun r => r.address == a) = some pf := by
  obtain ⟨ext, hext⟩ := setupPF_append rows ds
  rw [hext]
  exact find?_append_some h

/-- C5 witness: a stored entry survives a run declaring a different block. -/
theorem proxy_factory_existing_entry_unchanged_witness :
    (_setup_safe_proxy_factories
        [{ address := "0xF", initial_block_number := 1, tx_block_number := 2 }]
        [("0xF", 99)]).find? (fun r => r.address == "0xF") =
      some { address := "0xF", initial_block_number := 1, tx_block_number := 2 } :=
  proxy_factory_existing_entry_unchanged
    [{ address := "0xF", initial_block_number := 1, tx_block_number := 2 }]
    [("0xF", 99)] "0xF"
    { address := "0xF", initial_block_number := 1, tx_block_number := 2 }
    (by decide)

theorem sched_goc_fst (rows : List IntervalSchedule) (e : Nat) (p : String) :
    (IntervalSchedule.get_or_create rows e p).1 = ⟨e, p⟩ := by
  rw [IntervalSchedule.get_or_create]
  cases hf : rows.find? (fun r => r.every == e && r.period == p) with
  | none => rfl
  | some s =>
    have hs := List.find?_some hf
    simp only [Bool.and_eq_true, beq_iff_eq] at hs
    cases s
    simp only
    exact congrArg₂ IntervalSchedule.mk hs.1 hs.2

theorem sched_goc_find (rows : List IntervalSchedule) (e : Nat) (p : String) :
    (IntervalSchedule.get_or_create rows e p).2.find?
        (fun r => r.every == e && r.period == p) =
      some (IntervalSchedule.get_or_create rows e p).1 := by
  rw [IntervalSchedule.get_or_create]
  cases hf : rows.find? (fun r => r.every == e && r.period == p) with
  | none =>
    simp only
    rw [find?_append_none hf]
    simp
  | some s => simpa using hf

theorem sched_goc_twice (rows : List IntervalSchedule) (e : Nat) (p : String) :
    IntervalSchedule.get_or_create
        (IntervalSchedule.get_or_create rows e p).2 e p =
      ((IntervalSchedule.get_or_create rows e p).1,
       (IntervalSchedule.get_or_create rows e p).2) := by
  rw [IntervalSchedule.get_or_create, sched_goc_find]

theorem sched_goc_unique (rows : List IntervalSchedule) (e : Nat) (p : String)
    (hU : SchedUnique rows) :
    SchedUnique (IntervalSchedule.get_or_create rows e p).2 := by
  rw [IntervalSchedule.get_or_create]
  cases hf : rows.find? (fun r => r.every == e && r.period == p) with
  | some s => exact hU
  | none =>
    simp only [SchedUnique]
    rw [List.pairwise_append]
    refine ⟨hU, List.pairwise_singleton _ _, ?_⟩
    intro x hx y hy
    rw [List.mem_singleton] at hy
    subst hy
    have := List.find?_eq_none.mp hf x hx
    simp only [Bool.and_eq_true, beq_iff_eq, not_and] at this
    intro hc
    exact this hc.1 hc.2

theorem findTask_save (rows : List PeriodicTask) (obj : PeriodicTask)
    (a : String) :
    (PeriodicTask.save rows obj).find? (fun r => r.task == a) =
      (rows.find? (fun r => r.task == a)).map
        (fun r => if r.task == obj.task then obj else r) := by
  rw [PeriodicTask.save]
  refine find?_map_pred (fun r => ?_) rows
  by_cases hc : (r.task == obj.task) = true
  · simp only [if_pos hc]
    rw [beq_iff_eq.mp hc]
  · simp only [if_neg hc]

theorem countP_save (rows : List PeriodicTask) (obj : PeriodicTask)
    (k : String) :
    (PeriodicTask.save rows obj).countP (fun r => r.task == k) =
      rows.countP (fun r => r.task == k) := by
  rw [PeriodicTask.save, List.countP_map]
  refine List.countP_congr (fun r _ => ?_)
  show ((if r.task == obj.task then obj else r).task == k) = true ↔ _
  by_cases hc : (r.task == obj.task) = true
  · rw [if_pos hc, beq_iff_eq.mp hc]
  · rw [if_neg hc]

theorem unique_save (rows : List PeriodicTask) (obj : PeriodicTask)
    (hU : TaskUnique rows) : TaskUnique (PeriodicTask.save rows obj) := by
  rw [PeriodicTask.save]
  refine List.Pairwise.map _ (fun a b hab => ?_) hU
  by_cases ha : (a.task == obj.task) = true <;>
    by_cases hb : (b.task == obj.task) = true
  · exact absurd ((beq_iff_eq.mp ha).trans (beq_iff_eq.mp hb).symm) hab
  · simpa [ha, hb, beq_iff_eq.mp ha] using
      fun hc => hb (beq_iff_eq.mpr hc.symm)
  · simpa [ha, hb, beq_iff_eq.mp hb] using
      fun hc => ha (beq_iff_eq.mpr hc)
  · simpa [ha, hb] using hab

theorem countP_le_one_of_unique (rows : List PeriodicTask) (k : String)
    (hU : TaskUnique rows) :
    rows.countP (fun r => r.task == k) ≤ 1 := by
  induction rows with
  | nil => exact Nat.zero_le 1
  | cons x t ih =>
    rw [TaskUnique, List.pairwise_cons] at hU
    rw [List.countP_cons]
    by_cases hx : (x.task == k) = true
    · have hzero : t.countP (fun r => r.task == k) = 0 := by
        rw [List.countP_eq_zero]
        intro y hy hyk
        exact hU.1 y hy ((beq_iff_eq.mp hx).trans (beq_iff_eq.mp hyk).symm)
      simp [hzero, hx]
    · simpa [hx] using ih hU.2

theorem create_task_scheds (cfg : CeleryTaskConfiguration) (st : Store) :
    ((cfg.create_task st).2.2).intervalSchedules =
      (IntervalSchedule.get_or_create st.intervalSchedules
        cfg.interval cfg.period).2 := by
  rw [CeleryTaskConfiguration.create_task]
  cases hf : st.periodicTasks.find? (fun r => r.task == cfg.name) with
  | none => simp [PeriodicTask.get_or_create, hf]
  | some r => simp [PeriodicTask.get_or_create, hf]

theorem create_task_masterCopies (cfg : CeleryTaskConfiguration) (st : Store) :
    ((cfg.create_task st).2.2).masterCopies = st.masterCopies := by
  rw [CeleryTaskConfiguration.create_task]
  cases hf : st.periodicTasks.find? (fun r => r.task == cfg.name) with
  | none => simp [PeriodicTask.get_or_create, hf]
  | some r => simp [PeriodicTask.get_or_create, hf]

theorem create_task_proxyFactories (cfg : CeleryTaskConfiguration) (st : Store) :
    ((cfg.create_task st).2.2).proxyFactories = st.proxyFactories := by
  rw [CeleryTaskConfiguration.create_task]
  cases hf : st.periodicTasks.find? (fun r => r.task == cfg.name) with
  | none => simp [PeriodicTask.get_or_create, hf]
  | some r => simp [PeriodicTask.get_or_create, hf]

theorem create_task_fst_interval (cfg : CeleryTaskConfiguration) (st : Store) :
    ((cfg.create_task st).1).interval = ⟨cfg.interval, cfg.period⟩ := by
  rw [CeleryTaskConfiguration.create_task]
  cases hf : st.periodicTasks.find? (fun r => r.task == cfg.name) with
  | none => simp [PeriodicTask.get_or_create, hf, sched_goc_fst]
  | some r => simp [PeriodicTask.get_or_create, hf, sched_goc_fst]

theorem create_task_find_self (cfg : CeleryTaskConfiguration) (st : Store) :
    ((cfg.create_task st).2.2).periodicTasks.find?
        (fun r => r.task == cfg.name) = some (declaredRecord cfg) := by
  rw [CeleryTaskConfiguration.create_task]
  cases hf : st.periodicTasks.find? (fun r => r.task == cfg.name) with
  | none =>
    simp only [PeriodicTask.get_or_create, hf]
    rw [if_pos trivial]
    simp only
    rw [find?_append_none hf, sched_goc_fst]
    simp [declaredRecord]
  | some r =>
    simp only [PeriodicTask.get_or_create, hf]
    rw [if_neg (by simp)]
    simp only
    rw [findTask_save, hf]
    have hr0 := List.find?_some hf
    have hr : r.task = cfg.name := by simpa using hr0
    simp only [Option.map]
    rw [sched_goc_fst]
    simp [hr, declaredRecord]

theorem create_task_unique (cfg : CeleryTaskConfiguration) (st : Store)
    (hU : TaskUnique st.periodicTasks) :
    TaskUnique ((cfg.create_task st).2.2).periodicTasks := by
  rw [CeleryTaskConfiguration.create_task]
  cases hf : st.periodicTasks.find? (fun r => r.task == cfg.name) with
  | none =>
    simp only [PeriodicTask.get_or_create, hf]
    rw [if_pos trivial]
    simp only [TaskUnique]
    rw [List.pairwise_append]
    refine ⟨hU, List.pairwise_singleton _ _, ?_⟩
    intro a ha b hb
    rw [List.mem_singleton] at hb
    subst hb
    intro hc
    exact List.find?_eq_none.mp hf a ha (beq_iff_eq.mpr hc)
  | some r =>
    simp only [PeriodicTask.get_or_create, hf]
    rw [if_neg (by simp)]
    exact unique_save _ _ hU

theorem create_task_countP_self (cfg : CeleryTaskConfiguration) (st : Store)
    (hU : TaskUnique st.periodicTasks) :
    ((cfg.create_task st).2.2).periodicTasks.countP
      (fun r => r.task == cfg.name) = 1 := by
  rw [CeleryTaskConfiguration.create_task]
  cases hf : st.periodicTasks.find? (fun r => r.task == cfg.name) with
  | none =>
    simp only [PeriodicTask.get_or_create, hf]
    rw [if_pos trivial]
    simp only
    rw [List.countP_append, List.countP_eq_zero.mpr (List.find?_eq_none.mp hf)]
    simp [List.countP_cons]
  | some r =>
    simp only [PeriodicTask.get_or_create, hf]
    rw [if_neg (by simp)]
    simp only
    rw [countP_save]
    refine Nat.le_antisymm (countP_le_one_of_unique _ _ hU) ?_
    have hmem := List.mem_of_find?_eq_some hf
    have hp := List.find?_some hf
    exact List.countP_pos_iff.mpr ⟨r, hmem, hp⟩

theorem create_task_countP_other (cfg : CeleryTaskConfiguration) (st : Store)
    (k : String) (hk : k ≠ cfg.name) :
    ((cfg.create_task st).2.2).periodicTasks.countP
        (fun r => r.task == k) =
      st.periodicTasks.countP (fun r => r.task == k) := by
  rw [CeleryTaskConfiguration.create_task]
  cases hf : st.periodicTasks.find? (fun r => r.task == cfg.name) with
  | none =>
    simp only [PeriodicTask.get_or_create, hf]
    rw [if_pos trivial]
    simp only
    rw [List.countP_append]
    have hne : (cfg.name == k) = false :=
      beq_eq_false_iff_ne.mpr (fun hc => hk hc.symm)
    simp [List.countP_cons, hne]
  | some r =>
    simp only [PeriodicTask.get_or_create, hf]
    rw [if_neg (by simp)]
    simp only
    rw [countP_save]

theorem runTasks_masterCopies (tasks : List CeleryTaskConfiguration)
    (acc : Store × TaskRunReport) :
    (runTasks tasks acc).1.masterCopies = acc.1.masterCopies := by
  induction tasks generalizing acc with
  | nil => rfl
  | cons t rest ih =>
    rw [runTasks, ih]
    exact create_task_masterCopies t acc.1

theorem runTasks_proxyFactories (tasks : List CeleryTaskConfiguration)
    (acc : Store × TaskRunReport) :
    (runTasks tasks acc).1.proxyFactories = acc.1.proxyFactories := by
  induction tasks generalizing acc with
  | nil => rfl
  | cons t rest ih =>
    rw [runTasks, ih]
    exact create_task_proxyFactories t acc.1

theorem runTasks_countP_frame (tasks : List CeleryTaskConfiguration)
    (acc : Store × TaskRunReport) (k : String)
    (h : ∀ t ∈ tasks, t.name ≠ k) :
    (runTasks tasks acc).1.periodicTasks.countP (fun r => r.task == k) =
      acc.1.periodicTasks.countP (fun r => r.task == k) := by
  induction tasks generalizing acc with
  | nil => rfl
  | cons t rest ih =>
    rw [runTasks, ih _ (fun t' ht' => h t' (List.mem_cons_of_mem _ ht'))]
    exact create_task_countP_other t acc.1 k
      (fun hc => h t (List.mem_cons_self _ _) hc.symm)

theorem runTasks_unique (tasks : List CeleryTaskConfiguration)
    (acc : Store × TaskRunReport) (hU : TaskUnique acc.1.periodicTasks) :
    TaskUnique (runTasks tasks acc).1.periodicTasks := by
  induction tasks generalizing acc with
  | nil => exact hU
  | cons t rest ih =>
    rw [runTasks]
    exact ih _ (create_task_unique t acc.1 hU)

theorem runTasks_countP_all (tasks : List CeleryTaskConfiguration)
    (acc : Store × TaskRunReport) (hU : TaskUnique acc.1.periodicTasks)
    (hnames : tasks.Pairwise (fun a b => a.name ≠ b.name)) :
    ∀ cfg ∈ tasks, (runTasks tasks acc).1.periodicTasks.countP
      (fun r => r.task == cfg.name) = 1 := by
  induction tasks generalizing acc with
  | nil => intro cfg h; cases h
  | cons t rest ih =>
    rw [List.pairwise_cons] at hnames
    intro cfg hcfg
    rcases List.mem_cons.mp hcfg with h | h
    · subst h
      rw [runTasks]
      rw [runTasks_countP_frame rest _ cfg.name
        (fun t' ht' hc => hnames.1 t' ht' hc.symm)]
      exact create_task_countP_self cfg acc.1 hU
    · rw [runTasks]
      exact ih _ (create_task_unique t acc.1 hU) hnames.2 cfg h

/-- C4: task reconciliation wipes the namespaced records and recreates one
record per declaration; for any starting store with unique task keys and
pairwise-distinct declared names, the resulting table holds exactly one
record per declared name — a declared name colliding with a surviving
non-namespaced record is updated in place by `save`, never duplicated. -/
theorem task_store_one_record_per_declared_name
    (tasks : List CeleryTaskConfiguration) (store : Store)
    (hU : TaskUnique store.periodicTasks)
    (hnames : tasks.Pairwise (fun a b => a.name ≠ b.name)) :
    ∀ cfg ∈ tasks, (reconcileTasks tasks store).1.periodicTasks.countP
      (fun r => r.task == cfg.name) = 1 := by
  rw [reconcileTasks]
  refine runTasks_countP_all tasks _ ?_ hnames
  exact List.Pairwise.sublist (List.filter_sublist _) hU

/-- C4 witness: one declaration colliding with a pre-existing
non-namespaced record of the same key ends as exactly one record. -/
theorem task_store_one_record_per_declared_name_witness :
    (reconcileTasks [⟨"a", "A", 1, "minutes", true⟩]
        { emptyStore with
          periodicTasks := [⟨"a", "Old", ⟨9, "days"⟩, false⟩] }).1.periodicTasks.countP
      (fun r => r.task == "a") = 1 :=
  task_store_one_record_per_declared_name
    [⟨"a", "A", 1, "minutes", true⟩]
    { emptyStore with periodicTasks := [⟨"a", "Old", ⟨9, "days"⟩, false⟩] }
    (List.pairwise_singleton _ _) (List.pairwise_singleton _ _)
    ⟨"a", "A", 1, "minutes", true⟩ (List.mem_singleton.mpr rfl)

/-- C10: after `create_task`, the stored record keyed by the declared name
always equals the declaration (label from `description`, schedule from the
`(interval, period)` pair, `enabled` flag), regardless of the record's prior
contents: when the record pre-existed, every one of those columns is
overwritten and saved unconditionally. -/
theorem create_task_overwrites_with_declaration
    (cfg : CeleryTaskConfiguration) (store : Store) :
    ((cfg.create_task store).2.2).periodicTasks.find?
      (fun r => r.task == cfg.name) = some (declaredRecord cfg) :=
  create_task_find_self cfg store

/-- C8: two declarations with the same `(intervalValue, intervalUnit)` pair
resolve to the same stored recurrence-schedule row: the second `create_task`
references the identical schedule row, adds no schedule row at all, and
per-pair uniqueness of the schedule table is preserved. -/
theorem schedule_dedup_same_pair
    (t1 t2 : CeleryTaskConfiguration) (store : Store)
    (he : t2.interval = t1.interval) (hp : t2.period = t1.period) :
    ((t2.create_task ((t1.create_task store).2.2)).1).interval =
        ((t1.create_task store).1).interval
      ∧ ((t2.create_task ((t1.create_task store).2.2)).2.2).intervalSchedules =
        ((t1.create_task store).2.2).intervalSchedules
      ∧ (SchedUnique store.intervalSchedules →
          SchedUnique ((t2.create_task
            ((t1.create_task store).2.2)).2.2).intervalSchedules) := by
  refine ⟨?_, ?_, ?_⟩
  · rw [create_task_fst_interval, create_task_fst_interval, he, hp]
  · rw [create_task_scheds t2, create_task_scheds t1 store, he, hp,
      sched_goc_twice]
  · intro hU
    rw [create_task_scheds t2, create_task_scheds t1 store, he, hp,
      sched_goc_twice]
    exact sched_goc_unique _ _ _ hU

/-- C8 witness: two concrete declarations sharing the pair `(5, "minutes")`. -/
theorem schedule_dedup_same_pair_witness :
    ((CeleryTaskConfiguration.create_task ⟨"b", "B", 5, "minutes", true⟩
        ((CeleryTaskConfiguration.create_task ⟨"a", "A", 5, "minutes", true⟩
          emptyStore).2.2)).1).interval =
        ((CeleryTaskConfiguration.create_task ⟨"a", "A", 5, "minutes", true⟩
          emptyStore).1).interval
      ∧ ((CeleryTaskConfiguration.create_task ⟨"b", "B", 5, "minutes", true⟩
          ((CeleryTaskConfiguration.create_task ⟨"a", "A", 5, "minutes", true⟩
            emptyStore).2.2)).2.2).intervalSchedules =
        ((CeleryTaskConfiguration.create_task ⟨"a", "A", 5, "minutes", true⟩
          emptyStore).2.2).intervalSchedules
      ∧ (SchedUnique emptyStore.intervalSchedules →
          SchedUnique ((CeleryTaskConfiguration.create_task
            ⟨"b", "B", 5, "minutes", true⟩
            ((CeleryTaskConfiguration.create_task ⟨"a", "A", 5, "minutes", true⟩
              emptyStore).2.2)).2.2).intervalSchedules) :=
  schedule_dedup_same_pair ⟨"a", "A", 5, "minutes", true⟩
    ⟨"b", "B", 5, "minutes", true⟩ emptyStore rfl rfl

theorem reconcileTasks_masterCopies (tasks : List CeleryTaskConfiguration)
    (store : Store) :
    (reconcileTasks tasks store).1.masterCopies = store.masterCopies := by
  rw [reconcileTasks]
  exact runTasks_masterCopies tasks _

theorem reconcileTasks_proxyFactories (tasks : List CeleryTaskConfiguration)
    (store : Store) :
    (reconcileTasks tasks store).1.proxyFactories = store.proxyFactories := by
  rw [reconcileTasks]
  exact runTasks_proxyFactories tasks _

theorem handle_warned (tasks : List CeleryTaskConfiguration)
    (mcTable : List (String × List (String × Nat × String)))
    (pfTable : List (String × List (String × Nat)))
    (id : String) (store : Store) :
    (Command.handle tasks mcTable pfTable (some id) store).warnedUnrecognized =
      !((mcTable.lookup id).isSome && (pfTable.lookup id).isSome) := rfl

theorem handle_store_mc_of_lookup_none (tasks : List CeleryTaskConfiguration)
    (mcTable : List (String × List (String × Nat × String)))
    (pfTable : List (String × List (String × Nat)))
    (id : String) (store : Store) (hmc : mcTable.lookup id = none) :
    (Command.handle tasks mcTable pfTable (some id) store).store.masterCopies =
      store.masterCopies := by
  simp only [Command.handle, hmc]
  cases hpf : pfTable.lookup id <;>
    simp [hpf, reconcileTasks_masterCopies]

theorem handle_store_pf_of_lookup_none (tasks : List CeleryTaskConfiguration)
    (mcTable : List (String × List (String × Nat × String)))
    (pfTable : List (String × List (String × Nat)))
    (id : String) (store : Store) (hpf : pfTable.lookup id = none) :
    (Command.handle tasks mcTable pfTable (some id) store).store.proxyFactories =
      store.proxyFactories := by
  simp only [Command.handle, hpf]
  cases hmc : mcTable.lookup id <;>
    simp [hmc, reconcileTasks_proxyFactories]

/-- C2: with the compiled-in declaration tables, a run warns "unrecognized
network" exactly when the resolved network id is a key of neither table
(both tables declare only the key "7001", so the code's negated-conjunction
test coincides with the negated disjunction); when unrecognized, the
registry tables are not mutated and the run still completes. -/
theorem unrecognized_network_warning_iff (id : String)
    (tasks : List CeleryTaskConfiguration) (store : Store) :
    ((Command.handle tasks MASTER_COPIES PROXY_FACTORIES
        (some id) store).warnedUnrecognized = true
      ↔ ¬((MASTER_COPIES.lookup id).isSome = true
          ∨ (PROXY_FACTORIES.lookup id).isSome = true))
    ∧ (¬((MASTER_COPIES.lookup id).isSome = true
          ∨ (PROXY_FACTORIES.lookup id).isSome = true) →
        (Command.handle tasks MASTER_COPIES PROXY_FACTORIES
            (some id) store).store.masterCopies = store.masterCopies
        ∧ (Command.handle tasks MASTER_COPIES PROXY_FACTORIES
            (some id) store).store.proxyFactories = store.proxyFactories
        ∧ (Command.handle tasks MASTER_COPIES PROXY_FACTORIES
            (some id) store).completed = true) := by
  by_cases hid : id = "7001"
  · subst hid
    constructor
    · rw [handle_warned]
      decide
    · intro hno
      exact absurd (Or.inl (by decide)) hno
  · have hbeq : (id == "7001") = false := beq_eq_false_iff_ne.mpr hid
    have hmc : MASTER_COPIES.lookup id = none := by
      simp [MASTER_COPIES, List.lookup, hbeq]
    have hpf : PROXY_FACTORIES.lookup id = none := by
      simp [PROXY_FACTORIES, List.lookup, hbeq]
    constructor
    · rw [handle_warned, hmc, hpf]
      decide
    · intro hno
      exact ⟨handle_store_mc_of_lookup_none tasks _ _ id store hmc,
        handle_store_pf_of_lookup_none tasks _ _ id store hpf, rfl⟩

/-- C2 witness: the network id "9999" is in neither table. -/
theorem unrecognized_network_warning_iff_witness :
    (Command.handle [] MASTER_COPIES PROXY_FACTORIES
        (some "9999") emptyStore).warnedUnrecognized = true
    ∧ (Command.handle [] MASTER_COPIES PROXY_FACTORIES
        (some "9999") emptyStore).store.masterCopies = emptyStore.masterCopies
    ∧ (Command.handle [] MASTER_COPIES PROXY_FACTORIES
        (some "9999") emptyStore).completed = true := by
  have h := unrecognized_network_warning_iff "9999" [] emptyStore
  have hno : ¬((MASTER_COPIES.lookup "9999").isSome = true
      ∨ (PROXY_FACTORIES.lookup "9999").isSome = true) := by decide
  exact ⟨h.1.mpr hno, (h.2 hno).1, (h.2 hno).2.2⟩

/-- C7: when the chain-client query fails (modelled by `none`), the run
aborts uncompleted, but the task-store mutations — the namespace wipe and
the per-declaration recreation — have already completed in full (the task
and schedule tables equal those of the task-reconciliation step, and the
created count is reported), while the registry tables are untouched. -/
theorem connectivity_failure_tasks_complete_registry_untouched
    (tasks : List CeleryTaskConfiguration)
    (mcTable : List (String × List (String × Nat × String)))
    (pfTable : List (String × List (String × Nat))) (store : Store) :
    (Command.handle tasks mcTable pfTable none store).completed = false
    ∧ (Command.handle tasks mcTable pfTable none store).store.periodicTasks =
        (reconcileTasks tasks store).1.periodicTasks
    ∧ (Command.handle tasks mcTable pfTable none store).store.intervalSchedules =
        (reconcileTasks tasks store).1.intervalSchedules
    ∧ (Command.handle tasks mcTable pfTable none store).store.masterCopies =
        store.masterCopies
    ∧ (Command.handle tasks mcTable pfTable none store).store.proxyFactories =
        store.proxyFactories
    ∧ (Command.handle tasks mcTable pfTable none store).createdCount =
        (reconcileTasks tasks store).2.createdCount := by
  refine ⟨rfl, rfl, rfl, ?_, ?_, rfl⟩
  · exact reconcileTasks_masterCopies tasks store
  · exact reconcileTasks_proxyFactories tasks store

theorem create_task_fresh (cfg : CeleryTaskConfiguration) (st : Store)
    (hfind : st.periodicTasks.find? (fun r => r.task == cfg.name) = none) :
    (cfg.create_task st).2.1 = true
    ∧ ((cfg.create_task st).2.2).periodicTasks =
        st.periodicTasks ++ [declaredRecord cfg] := by
  rw [CeleryTaskConfiguration.create_task]
  simp only [PeriodicTask.get_or_create, hfind]
  rw [if_pos trivial]
  refine ⟨rfl, ?_⟩
  simp only
  rw [sched_goc_fst]
  rfl

theorem runTasks_fresh (tasks : List CeleryTaskConfiguration)
    (st : Store) (rep : TaskRunReport)
    (hfresh : ∀ t ∈ tasks, ∀ pt ∈ st.periodicTasks, pt.task ≠ t.name)
    (hnames : tasks.Pairwise (fun a b => a.name ≠ b.name)) :
    (runTasks tasks (st, rep)).1.periodicTasks =
        st.periodicTasks ++ tasks.map declaredRecord
    ∧ (runTasks tasks (st, rep)).2.createdCount =
        rep.createdCount + tasks.length
    ∧ (runTasks tasks (st, rep)).2.updatedCount = rep.updatedCount := by
  induction tasks generalizing st rep with
  | nil => exact ⟨(List.append_nil _).symm, rfl, rfl⟩
  | cons t rest ih =>
    rw [List.pairwise_cons] at hnames
    have hfind : st.periodicTasks.find? (fun r => r.task == t.name) = none := by
      refine List.find?_eq_none.mpr (fun pt hpt hbeq => ?_)
      exact hfresh t (List.mem_cons_self _ _) pt hpt (beq_iff_eq.mp hbeq)
    obtain ⟨hcr, hpt⟩ := create_task_fresh t st hfind
    rw [runTasks, hcr, if_pos rfl]
    obtain ⟨h1, h2, h3⟩ := ih ((t.create_task st).2.2)
      { rep with createdCount := rep.createdCount + 1 }
      (by
        intro t' ht' pt hptm
        rw [hpt, List.mem_append] at hptm
        rcases hptm with hold | hnew
        · exact hfresh t' (List.mem_cons_of_mem _ ht') pt hold
        · rw [List.mem_singleton] at hnew
          subst hnew
          exact fun hc => hnames.1 t' ht' hc)
      hnames.2
    refine ⟨?_, ?_, h3⟩
    · rw [h1, hpt, List.append_assoc, List.singleton_append, List.map_cons]
    · rw [h2]
      simp only [List.length_cons]
      omega

theorem sched_goc_mono (rows : List IntervalSchedule) (e e2 : Nat)
    (p p2 : String)
    (h : (rows.find? (fun r => r.every == e2 && r.period == p2)).isSome = true) :
    (((IntervalSchedule.get_or_create rows e p).2).find?
      (fun r => r.every == e2 && r.period == p2)).isSome = true := by
  obtain ⟨s, hs⟩ := Option.isSome_iff_exists.mp h
  rw [IntervalSchedule.get_or_create]
  cases hf : rows.find? (fun r => r.every == e && r.period == p) with
  | some r => simpa using h
  | none =>
    simp only
    rw [find?_append_some hs]
    rfl

theorem sched_goc_noop (rows : List IntervalSchedule) (e : Nat) (p : String)
    (s : IntervalSchedule)
    (h : rows.find? (fun r => r.every == e && r.period == p) = some s) :
    (IntervalSchedule.get_or_create rows e p).2 = rows := by
  rw [IntervalSchedule.get_or_create, h]

theorem create_task_sched_present (cfg : CeleryTaskConfiguration) (st : Store) :
    (((cfg.create_task st).2.2).intervalSchedules.find?
      (fun r => r.every == cfg.interval && r.period == cfg.period)).isSome
        = true := by
  rw [create_task_scheds, sched_goc_find]
  rfl

theorem create_task_sched_mono (cfg : CeleryTaskConfiguration) (st : Store)
    (e2 : Nat) (p2 : String)
    (h : (st.intervalSchedules.find?
      (fun r => r.every == e2 && r.period == p2)).isSome = true) :
    (((cfg.create_task st).2.2).intervalSchedules.find?
      (fun r => r.every == e2 && r.period == p2)).isSome = true := by
  rw [create_task_scheds]
  exact sched_goc_mono _ _ _ _ _ h

theorem create_task_sched_noop (cfg : CeleryTaskConfiguration) (st : Store)
    (h : (st.intervalSchedules.find?
      (fun r => r.every == cfg.interval && r.period == cfg.period)).isSome
        = true) :
    ((cfg.create_task st).2.2).intervalSchedules = st.intervalSchedules := by
  obtain ⟨s, hs⟩ := Option.isSome_iff_exists.mp h
  rw [create_task_scheds]
  exact sched_goc_noop _ _ _ _ hs

theorem runTasks_sched_mono (tasks : List CeleryTaskConfiguration)
    (acc : Store × TaskRunReport) (e2 : Nat) (p2 : String)
    (h : (acc.1.intervalSchedules.find?
      (fun r => r.every == e2 && r.period == p2)).isSome = true) :
    ((runTasks tasks acc).1.intervalSchedules.find?
      (fun r => r.every == e2 && r.period == p2)).isSome = true := by
  induction tasks generalizing acc with
  | nil => exact h
  | cons t rest ih =>
    rw [runTasks]
    exact ih _ (create_task_sched_mono t acc.1 e2 p2 h)

theorem runTasks_sched_present (tasks : List CeleryTaskConfiguration)
    (acc : Store × TaskRunReport) :
    ∀ t ∈ tasks, ((runTasks tasks acc).1.intervalSchedules.find?
      (fun r => r.every == t.interval && r.period == t.period)).isSome = true := by
  induction tasks generalizing acc with
  | nil => intro t h; cases h
  | cons t rest ih =>
    intro t' ht'
    rcases List.mem_cons.mp ht' with h | h
    · subst h
      rw [runTasks]
      exact runTasks_sched_mono rest _ _ _
        (create_task_sched_present t' acc.1)
    · rw [runTasks]
      exact ih _ t' h

theorem runTasks_sched_noop (tasks : List CeleryTaskConfiguration)
    (acc : Store × TaskRunReport)
    (hall : ∀ t ∈ tasks, (acc.1.intervalSchedules.find?
      (fun r => r.every == t.interval && r.period == t.period)).isSome = true) :
    (runTasks tasks acc).1.intervalSchedules = acc.1.intervalSchedules := by
  induction tasks generalizing acc with
  | nil => rfl
  | cons t rest ih =>
    rw [runTasks]
    have hnoop := create_task_sched_noop t acc.1
      (hall t (List.mem_cons_self _ _))
    rw [ih ((t.create_task acc.1).2.2,
      if (t.create_task acc.1).2.1 = true then
        { acc.2 with createdCount := acc.2.createdCount + 1 }
      else { acc.2 with updatedCount := acc.2.updatedCount + 1 })
      (fun t' ht' => by
        rw [hnoop]
        exact hall t' (List.mem_cons_of_mem _ ht'))]
    exact hnoop

theorem findMC_step_other (rows : List SafeMasterCopy)
    (d : String × Nat × String) (a : String) (hne : d.1 ≠ a) :
    (setupMasterCopyStep rows d).find? (fun r => r.address == a) =
      rows.find? (fun r => r.address == a) := by
  rcases d with ⟨a', ib, v⟩
  simp only at hne
  cases hf : rows.find? (fun r => r.address == a') with
  | none =>
    simp only [setupMasterCopyStep, SafeMasterCopy.get_or_create, hf]
    simp only [ne_eq, not_true_eq_false, or_self, if_false]
    cases h2 : rows.find? (fun r => r.address == a) with
    | some r => exact find?_append_some h2
    | none =>
      rw [find?_append_none h2]
      have : (a' == a) = false := beq_eq_false_iff_ne.mpr hne
      simp [this]
  | some mc' =>
    simp only [setupMasterCopyStep, SafeMasterCopy.get_or_create, hf]
    split
    · rw [findMC_save]
      cases h2 : rows.find? (fun r => r.address == a) with
      | none => rfl
      | some r =>
        simp only [Option.map]
        have hra : r.address = a := addr_of_findMC h2
        have hma : mc'.address = a' := addr_of_findMC hf
        have : (r.address == mc'.address) = false :=
          beq_eq_false_iff_ne.mpr (fun hc => hne ((hma ▸ hra ▸ hc).symm))
        simp only [this]
        rfl
    · rfl

theorem findMC_setup_frame (ds : List (String × Nat × String))
    (rows : List SafeMasterCopy) (a : String) (h : ∀ d ∈ ds, d.1 ≠ a) :
    (_setup_safe_master_copies rows ds).find? (fun r => r.address == a) =
      rows.find? (fun r => r.address == a) := by
  induction ds generalizing rows with
  | nil => rfl
  | cons d rest ih =>
    show (_setup_safe_master_copies (setupMasterCopyStep rows d) rest).find? _ = _
    rw [ih _ (fun d' hd' => h d' (List.mem_cons_of_mem _ hd'))]
    exact findMC_step_other rows d a (h d (List.mem_cons_self _ _))

theorem findMC_step_version (rows : List SafeMasterCopy) (a : String)
    (ib : Nat) (v : String) :
    ∃ mc, (setupMasterCopyStep rows (a, ib, v)).find?
        (fun r => r.address == a) = some mc
      ∧ mc.version = PyVal.str v := by
  cases hf : rows.find? (fun r => r.address == a) with
  | none =>
    simp only [setupMasterCopyStep, SafeMasterCopy.get_or_create, hf]
    simp only [ne_eq, not_true_eq_false, or_self, if_false]
    rw [find?_append_none hf]
    simp
  | some mc' =>
    simp only [setupMasterCopyStep, SafeMasterCopy.get_or_create, hf]
    split
    · rw [findMC_save, hf]
      simp only [Option.map]
      have : (mc'.address == mc'.address) = true := beq_iff_eq.mpr rfl
      simp only [this]
      exact ⟨_, rfl, rfl⟩
    · rename_i hcond
      rw [not_or] at hcond
      have hv : mc'.version = PyVal.str v := not_not.mp hcond.1
      exact ⟨mc', hf, hv⟩

theorem findMC_setup_version (ds : List (String × Nat × String))
    (rows : List SafeMasterCopy)
    (hdist : ds.Pairwise (fun x y => x.1 ≠ y.1)) :
    ∀ d ∈ ds, ∃ mc, (_setup_safe_master_copies rows ds).find?
        (fun r => r.address == d.1) = some mc
      ∧ mc.version = PyVal.str d.2.2 := by
  induction ds generalizing rows with
  | nil => intro d h; cases h
  | cons d rest ih =>
    rw [List.pairwise_cons] at hdist
    intro d' hd'
    rcases List.mem_cons.mp hd' with h | h
    · subst h
      obtain ⟨mc, hmc, hv⟩ := findMC_step_version rows d'.1 d'.2.1 d'.2.2
      refine ⟨mc, ?_, hv⟩
      show (_setup_safe_master_copies (setupMasterCopyStep rows d') rest).find? _ = _
      rw [findMC_setup_frame rest _ d'.1
        (fun y hy hc => hdist.1 y hy hc.symm)]
      · exact hmc
    · show ∃ mc, (_setup_safe_master_copies (setupMasterCopyStep rows d) rest).find? _ = _ ∧ _
      exact ih (setupMasterCopyStep rows d) hdist.2 d' h

theorem MCUnique_step (rows : List SafeMasterCopy) (d : String × Nat × String)
    (hU : MCUnique rows) : MCUnique (setupMasterCopyStep rows d) := by
  rcases d with ⟨a, ib, v⟩
  cases hf : rows.find? (fun r => r.address == a) with
  | none =>
    simp only [setupMasterCopyStep, SafeMasterCopy.get_or_create, hf]
    simp only [ne_eq, not_true_eq_false, or_self, if_false]
    rw [MCUnique, List.pairwise_append]
    refine ⟨hU, List.pairwise_singleton _ _, ?_⟩
    intro x hx y hy
    rw [List.mem_singleton] at hy
    subst hy
    intro hc
    exact List.find?_eq_none.mp hf x hx (beq_iff_eq.mpr hc)
  | some mc' =>
    simp only [setupMasterCopyStep, SafeMasterCopy.get_or_create, hf]
    split
    · rw [SafeMasterCopy.save_initial_block_and_version]
      refine List.Pairwise.map _ (fun x y hxy => ?_) hU
      by_cases hx : (x.address == mc'.address) = true <;>
        by_cases hy : (y.address == mc'.address) = true
      · exact absurd ((beq_iff_eq.mp hx).trans (beq_iff_eq.mp hy).symm) hxy
      · simpa [hx, hy] using (beq_iff_eq.mp hx) ▸ hxy
      · simpa [hx, hy] using (beq_iff_eq.mp hy) ▸ hxy
      · simpa [hx, hy] using hxy
    · exact hU

theorem MCUnique_setup (ds : List (String × Nat × String))
    (rows : List SafeMasterCopy) (hU : MCUnique rows) :
    MCUnique (_setup_safe_master_copies rows ds) := by
  induction ds generalizing rows with
  | nil => exact hU
  | cons d rest ih =>
    show MCUnique (_setup_safe_master_copies (setupMasterCopyStep rows d) rest)
    exact ih _ (MCUnique_step rows d hU)

theorem map_eq_self {α} {f : α → α} {l : List α} (h : ∀ a ∈ l, f a = a) :
    l.map f = l := by
  induction l with
  | nil => rfl
  | cons x t ih =>
    rw [List.map_cons, h x (List.mem_cons_self _ _),
      ih (fun a ha => h a (List.mem_cons_of_mem _ ha))]

theorem setup_masterCopies_noop (ds : List (String × Nat × String))
    (rows : List SafeMasterCopy) (hU : MCUnique rows)
    (hall : ∀ d ∈ ds, ∃ mc, rows.find? (fun r => r.address == d.1) = some mc
      ∧ mc.version = PyVal.str d.2.2) :
    _setup_safe_master_copies rows ds = rows := by
  induction ds with
  | nil => rfl
  | cons d rest ih =>
    obtain ⟨mc, hmc, hv⟩ := hall d (List.mem_cons_self _ _)
    have hstep : setupMasterCopyStep rows d = rows := by
      rcases d with ⟨a, ib, v⟩
      simp only at hmc hv
      simp only [setupMasterCopyStep, SafeMasterCopy.get_or_create, hmc]
      split
      · rw [SafeMasterCopy.save_initial_block_and_version]
        refine map_eq_self (fun r hr => ?_)
        by_cases hc : (r.address == mc.address) = true
        · have hra : r.address = a :=
            (beq_iff_eq.mp hc).trans (addr_of_findMC hmc)
          have hrmc : r = mc := hU.eq_of_mem hmc hr hra
          subst hrmc
          simp [hc, ← hv]
        · simp [hc]
      · rfl
    show _setup_safe_master_copies (setupMasterCopyStep rows d) rest = rows
    rw [hstep]
    exact ih (fun d' hd' => hall d' (List.mem_cons_of_mem _ hd'))

theorem findPF_setup_present (ds : List (String × Nat))
    (rows : List ProxyFactory) :
    ∀ d ∈ ds, ((_setup_safe_proxy_factories rows ds).find?
      (fun r => r.address == d.1)).isSome = true := by
  induction ds generalizing rows with
  | nil => intro d h; cases h
  | cons d rest ih =>
    intro d' hd'
    rcases List.mem_cons.mp hd' with h | h
    · subst h
      have hstep : ∃ pf, (setupProxyFactoryStep rows (d'.1, d'.2)).find?
          (fun r => r.address == d'.1) = some pf := by
        cases hf : rows.find? (fun r => r.address == d'.1) with
        | some pf =>
          refine ⟨pf, ?_⟩
          simp [setupProxyFactoryStep, ProxyFactory.get_or_create, hf]
        | none =>
          simp only [setupProxyFactoryStep, ProxyFactory.get_or_create, hf]
          rw [find?_append_none hf]
          simp
      obtain ⟨pf, hpf⟩ := hstep
      obtain ⟨ext, hext⟩ :=
        setupPF_append (setupProxyFactoryStep rows (d'.1, d'.2)) rest
      show ((_setup_safe_proxy_factories
        (setupProxyFactoryStep rows (d'.1, d'.2)) rest).find? _).isSome = true
      rw [hext, find?_append_some hpf]
      rfl
    · show ((_setup_safe_proxy_factories
        (setupProxyFactoryStep rows (d.1, d.2)) rest).find? _).isSome = true
      exact ih (setupProxyFactoryStep rows (d.1, d.2)) d' h

theorem setup_proxyFactories_noop (ds : List (String × Nat))
    (rows : List ProxyFactory)
    (hall : ∀ d ∈ ds, (rows.find? (fun r => r.address == d.1)).isSome = true) :
    _setup_safe_proxy_factories rows ds = rows := by
  induction ds with
  | nil => rfl
  | cons d rest ih =>
    obtain ⟨pf, hpf⟩ := Option.isSome_iff_exists.mp
      (hall d (List.mem_cons_self _ _))
    have hstep : setupProxyFactoryStep rows (d.1, d.2) = rows := by
      simp [setupProxyFactoryStep, ProxyFactory.get_or_create, hpf]
    show _setup_safe_proxy_factories (setupProxyFactoryStep rows (d.1, d.2)) rest = rows
    rw [hstep]
    exact ih (fun d' hd' => hall d' (List.mem_cons_of_mem _ hd'))

theorem handle_periodicTasks (tasks : List CeleryTaskConfiguration)
    (mcTable : List (String × List (String × Nat × String)))
    (pfTable : List (String × List (String × Nat)))
    (net : Option String) (store : Store) :
    (Command.handle tasks mcTable pfTable net store).store.periodicTasks =
      (reconcileTasks tasks store).1.periodicTasks := by
  cases net with
  | none => rfl
  | some id =>
    simp only [Command.handle]
    cases hmc : mcTable.lookup id <;> cases hpf : pfTable.lookup id <;>
      simp [hmc, hpf]

theorem handle_intervalSchedules (tasks : List CeleryTaskConfiguration)
    (mcTable : List (String × List (String × Nat × String)))
    (pfTable : List (String × List (String × Nat)))
    (net : Option String) (store : Store) :
    (Command.handle tasks mcTable pfTable net store).store.intervalSchedules =
      (reconcileTasks tasks store).1.intervalSchedules := by
  cases net with
  | none => rfl
  | some id =>
    simp only [Command.handle]
    cases hmc : mcTable.lookup id <;> cases hpf : pfTable.lookup id <;>
      simp [hmc, hpf]

theorem handle_createdCount (tasks : List CeleryTaskConfiguration)
    (mcTable : List (String × List (String × Nat × String)))
    (pfTable : List (String × List (String × Nat)))
    (net : Option String) (store : Store) :
    (Command.handle tasks mcTable pfTable net store).createdCount =
      (reconcileTasks tasks store).2.createdCount := by
  cases net <;> rfl

theorem handle_updatedCount (tasks : List CeleryTaskConfiguration)
    (mcTable : List (String × List (String × Nat × String)))
    (pfTable : List (String × List (String × Nat)))
    (net : Option String) (store : Store) :
    (Command.handle tasks mcTable pfTable net store).updatedCount =
      (reconcileTasks tasks store).2.updatedCount := by
  cases net <;> rfl

theorem handle_masterCopies_none (tasks : List CeleryTaskConfiguration)
    (mcTable : List (String × List (String × Nat × String)))
    (pfTable : List (String × List (String × Nat))) (store : Store) :
    (Command.handle tasks mcTable pfTable none store).store.masterCopies =
      store.masterCopies :=
  reconcileTasks_masterCopies tasks store

theorem handle_proxyFactories_none (tasks : List CeleryTaskConfiguration)
    (mcTable : List (String × List (String × Nat × String)))
    (pfTable : List (String × List (String × Nat))) (store : Store) :
    (Command.handle tasks mcTable pfTable none store).store.proxyFactories =
      store.proxyFactories :=
  reconcileTasks_proxyFactories tasks store

theorem handle_masterCopies_lookup_some (tasks : List CeleryTaskConfiguration)
    (mcTable : List (String × List (String × Nat × String)))
    (pfTable : List (String × List (String × Nat)))
    (id : String) (l : List (String × Nat × String)) (store : Store)
    (hmc : mcTable.lookup id = some l) :
    (Command.handle tasks mcTable pfTable (some id) store).store.masterCopies =
      _setup_safe_master_copies store.masterCopies l := by
  simp only [Command.handle, hmc]
  cases hpf : pfTable.lookup id <;> simp [hpf, reconcileTasks_masterCopies]

theorem handle_proxyFactories_lookup_some (tasks : List CeleryTaskConfiguration)
    (mcTable : List (String × List (String × Nat × String)))
    (pfTable : List (String × List (String × Nat)))
    (id : String) (l : List (String × Nat)) (store : Store)
    (hpf : pfTable.lookup id = some l) :
    (Command.handle tasks mcTable pfTable (some id) store).store.proxyFactories =
      _setup_safe_proxy_factories store.proxyFactories l := by
  simp only [Command.handle, hpf]
  cases hmc : mcTable.lookup id <;> simp [hmc, reconcileTasks_proxyFactories]

theorem Store.eq_of_fields {s t : Store}
    (h1 : s.intervalSchedules = t.intervalSchedules)
    (h2 : s.periodicTasks = t.periodicTasks)
    (h3 : s.masterCopies = t.masterCopies)
    (h4 : s.proxyFactories = t.proxyFactories) : s = t := by
  cases s
  cases t
  simp only [Store.mk.injEq]
  exact ⟨h1, h2, h3, h4⟩

theorem reconcileTasks_periodicTasks_eq (tasks : List CeleryTaskConfiguration)
    (store : Store)
    (hns : ∀ t ∈ tasks,
      strStartsWith t.name "safe_transaction_service" = true)
    (hnames : tasks.Pairwise (fun a b => a.name ≠ b.name)) :
    (reconcileTasks tasks store).1.periodicTasks =
      store.periodicTasks.filter
        (fun pt => !strStartsWith pt.task "safe_transaction_service")
      ++ tasks.map declaredRecord := by
  have hfresh : ∀ t ∈ tasks, ∀ pt ∈ store.periodicTasks.filter
      (fun pt => !strStartsWith pt.task "safe_transaction_service"),
      pt.task ≠ t.name := by
    intro t ht pt hpt heq
    have hm := (List.mem_filter.mp hpt).2
    rw [heq, hns t ht] at hm
    exact absurd hm (by decide)
  rw [reconcileTasks]
  exact (runTasks_fresh tasks
    { store with periodicTasks := store.periodicTasks.filter (fun pt => !strStartsWith pt.task "safe_transaction_service") }
    ⟨0, 0⟩ hfresh hnames).1

theorem reconcileTasks_counts (tasks : List CeleryTaskConfiguration)
    (store : Store)
    (hns : ∀ t ∈ tasks,
      strStartsWith t.name "safe_transaction_service" = true)
    (hnames : tasks.Pairwise (fun a b => a.name ≠ b.name)) :
    (reconcileTasks tasks store).2.createdCount = tasks.length
    ∧ (reconcileTasks tasks store).2.updatedCount = 0 := by
  have hfresh : ∀ t ∈ tasks, ∀ pt ∈ store.periodicTasks.filter
      (fun pt => !strStartsWith pt.task "safe_transaction_service"),
      pt.task ≠ t.name := by
    intro t ht pt hpt heq
    have hm := (List.mem_filter.mp hpt).2
    rw [heq, hns t ht] at hm
    exact absurd hm (by decide)
  rw [reconcileTasks]
  obtain ⟨_, h2, h3⟩ := runTasks_fresh tasks
    { store with periodicTasks := store.periodicTasks.filter (fun pt => !strStartsWith pt.task "safe_transaction_service") }
    ⟨0, 0⟩ hfresh hnames
  rw [h2, h3]
  exact ⟨Nat.zero_add _, rfl⟩

theorem reconcileTasks_sched_present (tasks : List CeleryTaskConfiguration)
    (store : Store) :
    ∀ t ∈ tasks, ((reconcileTasks tasks store).1.intervalSchedules.find?
      (fun r => r.every == t.interval && r.period == t.period)).isSome = true := by
  rw [reconcileTasks]
  exact runTasks_sched_present tasks _

theorem reconcileTasks_sched_noop (tasks : List CeleryTaskConfiguration)
    (store : Store)
    (hall : ∀ t ∈ tasks, (store.intervalSchedules.find?
      (fun r => r.every == t.interval && r.period == t.period)).isSome = true) :
    (reconcileTasks tasks store).1.intervalSchedules =
      store.intervalSchedules := by
  rw [reconcileTasks]
  exact runTasks_sched_noop tasks _ hall

set_option maxRecDepth 1000000 in
/-- C3 counterexample: with the compiled-in declarations and network "7001",
running `Command.handle` a second time over the store produced by the first
run reports a created count of 12 (every namespaced task is wiped and
recreated), not 0 as the claim states. -/
theorem second_run_created_count_ne_zero :
    (Command.handle (TASKS false) MASTER_COPIES PROXY_FACTORIES (some "7001")
      (Command.handle (TASKS false) MASTER_COPIES PROXY_FACTORIES
        (some "7001") emptyStore).store).createdCount ≠ 0 := by decide

/-- C3 amended: for every declaration set (namespaced, pairwise-distinct task
names; per-network master-copy lists with distinct addresses) and every
starting store whose master-copy table has unique addresses, running the
orchestrator twice produces the same final store state as running it once,
and the second run's updated count is 0 — but its created count equals the
number of declared tasks (the full wipe makes every task "created" on every
run), not 0. -/
theorem orchestrator_idempotent_amended
    (tasks : List CeleryTaskConfiguration)
    (mcTable : List (String × List (String × Nat × String)))
    (pfTable : List (String × List (String × Nat)))
    (net : Option String) (store : Store)
    (hns : ∀ t ∈ tasks,
      strStartsWith t.name "safe_transaction_service" = true)
    (hnames : tasks.Pairwise (fun a b => a.name ≠ b.name))
    (hU : MCUnique store.masterCopies)
    (hdist : ∀ id l, mcTable.lookup id = some l →
      l.Pairwise (fun x y => x.1 ≠ y.1)) :
    (Command.handle tasks mcTable pfTable net
        (Command.handle tasks mcTable pfTable net store).store).store =
      (Command.handle tasks mcTable pfTable net store).store
    ∧ (Command.handle tasks mcTable pfTable net
        (Command.handle tasks mcTable pfTable net store).store).createdCount =
      tasks.length
    ∧ (Command.handle tasks mcTable pfTable net
        (Command.handle tasks mcTable pfTable net store).store).updatedCount =
      0 := by
  set s1 := (Command.handle tasks mcTable pfTable net store).store with hs1
  have hpt1 : s1.periodicTasks = store.periodicTasks.filter
      (fun pt => !strStartsWith pt.task "safe_transaction_service")
      ++ tasks.map declaredRecord := by
    rw [hs1, handle_periodicTasks]
    exact reconcileTasks_periodicTasks_eq tasks store hns hnames
  have hsch1 : ∀ t ∈ tasks, (s1.intervalSchedules.find?
      (fun r => r.every == t.interval && r.period == t.period)).isSome
        = true := by
    intro t ht
    rw [hs1, handle_intervalSchedules]
    exact reconcileTasks_sched_present tasks store t ht
  have hc2 : (Command.handle tasks mcTable pfTable net s1).createdCount =
      tasks.length := by
    rw [handle_createdCount]
    exact (reconcileTasks_counts tasks s1 hns hnames).1
  have hc3 : (Command.handle tasks mcTable pfTable net s1).updatedCount = 0 := by
    rw [handle_updatedCount]
    exact (reconcileTasks_counts tasks s1 hns hnames).2
  refine ⟨Store.eq_of_fields ?_ ?_ ?_ ?_, hc2, hc3⟩
  · rw [handle_intervalSchedules]
    exact reconcileTasks_sched_noop tasks s1 hsch1
  · rw [handle_periodicTasks,
      reconcileTasks_periodicTasks_eq tasks s1 hns hnames, hpt1,
      List.filter_append, List.filter_filter]
    have hself : store.periodicTasks.filter
        (fun a => (!strStartsWith a.task "safe_transaction_service")
          && !strStartsWith a.task "safe_transaction_service") =
        store.periodicTasks.filter
          (fun pt => !strStartsWith pt.task "safe_transaction_service") :=
      List.filter_congr (fun x _ => Bool.and_self _)
    have hnil : (tasks.map declaredRecord).filter
        (fun pt => !strStartsWith pt.task "safe_transaction_service") = [] := by
      refine List.filter_eq_nil_iff.mpr (fun rec hrec => ?_)
      obtain ⟨t, ht, rfl⟩ := List.mem_map.mp hrec
      simp [declaredRecord, hns t ht]
    rw [hself, hnil, List.append_nil]
  · cases net with
    | none => exact handle_masterCopies_none tasks mcTable pfTable s1
    | some id =>
      cases hmcl : mcTable.lookup id with
      | none => exact handle_store_mc_of_lookup_none tasks _ _ id s1 hmcl
      | some l =>
        have e1 : s1.masterCopies =
            _setup_safe_master_copies store.masterCopies l := by
          rw [hs1]
          exact handle_masterCopies_lookup_some tasks mcTable pfTable
            id l store hmcl
        rw [handle_masterCopies_lookup_some tasks mcTable pfTable id l s1 hmcl]
        have hUl : MCUnique s1.masterCopies := by
          rw [e1]
          exact MCUnique_setup l store.masterCopies hU
        have hall : ∀ d ∈ l, ∃ mc, s1.masterCopies.find?
            (fun r => r.address == d.1) = some mc
            ∧ mc.version = PyVal.str d.2.2 := by
          rw [e1]
          exact findMC_setup_version l store.masterCopies (hdist id l hmcl)
        exact setup_masterCopies_noop l s1.masterCopies hUl hall
  · cases net with
    | none => exact handle_proxyFactories_none tasks mcTable pfTable s1
    | some id =>
      cases hpfl : pfTable.lookup id with
      | none => exact handle_store_pf_of_lookup_none tasks _ _ id s1 hpfl
      | some l =>
        have e1 : s1.proxyFactories =
            _setup_safe_proxy_factories store.proxyFactories l := by
          rw [hs1]
          exact handle_proxyFactories_lookup_some tasks mcTable pfTable
            id l store hpfl
        rw [handle_proxyFactories_lookup_some tasks mcTable pfTable id l s1 hpfl]
        have hall : ∀ d ∈ l, (s1.proxyFactories.find?
            (fun r => r.address == d.1)).isSome = true := by
          rw [e1]
          exact findPF_setup_present l store.proxyFactories
        exact setup_proxyFactories_noop l s1.proxyFactories hall

set_option maxRecDepth 1000000 in
/-- C3 amended witness: the compiled-in declarations over the empty store. -/
theorem orchestrator_idempotent_amended_witness :
    (Command.handle (TASKS false) MASTER_COPIES PROXY_FACTORIES (some "7001")
        (Command.handle (TASKS false) MASTER_COPIES PROXY_FACTORIES
          (some "7001") emptyStore).store).store =
      (Command.handle (TASKS false) MASTER_COPIES PROXY_FACTORIES
        (some "7001") emptyStore).store
    ∧ (Command.handle (TASKS false) MASTER_COPIES PROXY_FACTORIES (some "7001")
        (Command.handle (TASKS false) MASTER_COPIES PROXY_FACTORIES
          (some "7001") emptyStore).store).createdCount =
      (TASKS false).length
    ∧ (Command.handle (TASKS false) MASTER_COPIES PROXY_FACTORIES (some "7001")
        (Command.handle (TASKS false) MASTER_COPIES PROXY_FACTORIES
          (some "7001") emptyStore).store).updatedCount = 0 := by
  refine orchestrator_idempotent_amended (TASKS false) MASTER_COPIES
    PROXY_FACTORIES (some "7001") emptyStore ?_ ?_ ?_ ?_
  · decide
  · decide
  · exact List.Pairwise.nil
  · intro id l h
    rw [MASTER_COPIES, List.lookup] at h
    cases hb : (id == "7001") with
    | true =>
      rw [hb] at h
      cases h
      decide
    | false =>
      rw [hb] at h
      cases h
